import Mathlib

/-
Verification of the annot8 header-annotation engine against its
natural-language specification.

The repository source available here contains the legacy `pyannotate`
proxy package and the test suite; the engine itself
(`annot8.annotate_headers`, `annot8.config`, `annot8.cli`) is not part of
the available sources, so the engine is modelled from the specification
(spec.md).  File contents are modelled as `String`s (lists of characters),
file texts are split into lines on the newline character, and every
operation of the engine is a computable Lean function.
-/

set_option maxRecDepth 8000

namespace Annot8

/-- Modelled from the spec: `ProcessResult.status`, one of
`modified`, `unchanged`, `skipped`, `error` (spec section 3). -/
inductive Status where
  | modified
  | unchanged
  | skipped
  | error
deriving DecidableEq

/-- Whitespace characters recognised when stripping a line
(space, tab, carriage return; newlines never occur inside a line). -/
def isWs (c : Char) : Bool := c = ' ' || c = '\t' || c = '\r'

/-- Drop leading whitespace of a line. -/
def dropWs (l : List Char) : List Char := l.dropWhile isWs

/-- Strip leading and trailing whitespace of a line. -/
def trimChars (l : List Char) : List Char := ((dropWs l).reverse.dropWhile isWs).reverse

/-- A line is blank when stripping it leaves nothing. -/
def isBlank (l : List Char) : Bool := (trimChars l).isEmpty

/-- Boolean test that the first list is a leading segment of the second. -/
def leadsWith : List Char → List Char → Bool
  | [], _ => true
  | _ :: _, [] => false
  | a :: as, b :: bs => if a = b then leadsWith as bs else false

/-- Split a character list into lines at newline characters.  The result is
always non-empty and a trailing newline yields a final empty line, matching
how line splitting behaves on file text. -/
def splitNl : List Char → List (List Char)
  | [] => [[]]
  | c :: rest =>
    if c = '\n' then [] :: splitNl rest
    else
      match splitNl rest with
      | l :: ls => (c :: l) :: ls
      | [] => [[c]]

/-- Join lines back into a character list with newline separators. -/
def joinNl : List (List Char) → List Char
  | [] => []
  | [l] => l
  | l :: ls => l ++ '\n' :: joinNl ls

/-- Modelled from the spec: the static extension-to-style table of the
Comment Style Resolver (spec section 4.1), covering the extensions the
spec names.  A style is a `(start, end)` delimiter pair with an empty
`end` for line comments. -/
def extensionStyles : List (String × (String × String)) :=
  [(".cjs", ("//", "")), (".mjs", ("//", "")), (".js", ("//", "")), (".ts", ("//", "")),
   (".go", ("//", "")), (".java", ("//", "")), (".rs", ("//", "")), (".swift", ("//", "")),
   (".kt", ("//", "")), (".scala", ("//", "")), (".dart", ("//", "")),
   (".py", ("#", "")), (".rb", ("#", "")), (".sh", ("#", "")),
   (".sql", ("--", "")), (".lua", ("--", "")),
   (".css", ("/*", "*/")), (".html", ("<!--", "-->")), (".xml", ("<!--", "-->"))]

/-- The comment styles the extension table or the sniffer can produce. -/
def knownStyles : List (String × String) :=
  [("//", ""), ("#", ""), ("--", ""), ("/*", "*/"), ("<!--", "-->")]

/-- The comment styles content sniffing can produce. -/
def sniffStyles : List (String × String) := [("//", ""), ("#", ""), ("--", "")]

/-- A line is a shebang when it begins with the two characters of a shebang. -/
def isShebang (l : List Char) : Bool := leadsWith "#!".data l

/-- Modelled from the spec: content sniffing reads the leading token of a
line, recognising the three line-comment tokens and defaulting to the hash
style (spec section 4.1 step 2). -/
def sniffToken (l : List Char) : String × String :=
  if leadsWith "//".data (trimChars l) then ("//", "")
  else if leadsWith "#".data (trimChars l) then ("#", "")
  else if leadsWith "--".data (trimChars l) then ("--", "")
  else ("#", "")

/-- Modelled from the spec: sniff the first non-blank line of the given
lines; when all lines are blank the style defaults to hash. -/
def sniffLines : List (List Char) → String × String
  | [] => ("#", "")
  | l :: ls => if isBlank l then sniffLines ls else sniffToken l

/-- Drop a leading shebang line, if present, before content sniffing
(spec section 4.1: the shebang line is never inspected for style cues). -/
def dropShebang : List (List Char) → List (List Char)
  | [] => []
  | l :: ls => if isShebang l then ls else l :: ls

/-- Modelled from the spec: the Comment Style Resolver
(`_get_comment_style`).  Extension lookup takes precedence; otherwise the
style is sniffed from the first non-blank, non-shebang line
(spec section 4.1). -/
def resolveStyle (ext : String) (lines : List (List Char)) : String × String :=
  match List.lookup ext extensionStyles with
  | some s => s
  | none => sniffLines (dropShebang lines)

/-- Modelled from the spec: the known comment-start tokens under which a
header marker is recognised, block-comment starts tested as distinct
patterns (spec sections 4.2 and 9). -/
def markerTokens : List String := ["#", "//", "/*", "--", "<!--"]

/-- A stripped line matches the header marker for token `tok` when it
begins with `tok` and the first non-whitespace text after the token is the
literal `File:` (spec section 4.2). -/
def markerAt (tok : String) (l : List Char) : Bool :=
  leadsWith tok.data (trimChars l) &&
    leadsWith "File:".data (dropWs ((trimChars l).drop tok.data.length))

/-- The comment-start token under which a line matches the header marker,
if any. -/
def lineMarker (l : List Char) : Option String :=
  markerTokens.find? (fun tok => markerAt tok l)

/-- Modelled from the spec: the Header Detector scans the first two lines
(after any preserved leading line) for a header marker and reports the
index and token of the first match (spec section 4.2). -/
def findHeaderLine : List (List Char) → Option (Nat × String)
  | [] => none
  | l0 :: rest =>
    match lineMarker l0 with
    | some t => some (0, t)
    | none =>
      match rest with
      | [] => none
      | l1 :: _ =>
        match lineMarker l1 with
        | some t => some (1, t)
        | none => none

/-- Modelled from the spec: `_has_existing_header` reports whether any of
the first two lines carries a header marker, regardless of which comment
style the caller expected (spec section 4.2). -/
def _has_existing_header (lines : List (List Char)) (_comment_start : String) : Bool :=
  (findHeaderLine lines).isSome

/-- Scan up to the first bar character, returning the text before it and
the text after it. -/
def breakAtBar : List Char → Option (List Char × List Char)
  | [] => none
  | c :: rest =>
    if c = '|' then some ([], rest)
    else
      match breakAtBar rest with
      | some p => some (c :: p.1, p.2)
      | none => none

/-- Look a variable up in a template context. -/
def lookupCtx (ctx : List (String × String)) (k : String) : Option String :=
  List.lookup k ctx

/-- Modelled from the spec: the value substituted for a placeholder with a
fallback default: the context value when present and non-empty, else the
literal default text (spec section 4.3). -/
def fallbackValue (ctx : List (String × String)) (name : String) (dflt : List Char) : List Char :=
  match lookupCtx ctx name with
  | some v => if v.data.isEmpty then dflt else v.data
  | none => dflt

/-- Modelled from the spec: expansion of the text between the braces of a
placeholder: with a bar the fallback rule applies, without one the context
value or the empty string is substituted (spec section 4.3). -/
def expandPlaceholder (ctx : List (String × String)) (inside : List Char) : List Char :=
  match breakAtBar inside with
  | some p => fallbackValue ctx (String.mk p.1) p.2
  | none => ((lookupCtx ctx (String.mk inside)).getD "").data

/-- Modelled from the spec: the single-pass scanner over one template
line (spec sections 4.3 and 9).  The second argument is the scanner
state: `none` outside braces, `some acc` inside a placeholder with the
text read so far accumulated in reverse.  An opening brace with no
closing brace on the line is malformed and passes through unexpanded;
otherwise the placeholder is substituted and scanning continues after the
closing brace. -/
def renderScan (ctx : List (String × String)) : List Char → Option (List Char) → List Char
  | [], none => []
  | [], some acc => '{' :: acc.reverse
  | c :: rest, none =>
      if c = '{' then renderScan ctx rest (some [])
      else c :: renderScan ctx rest none
  | c :: rest, some acc =>
      if c = '}' then expandPlaceholder ctx acc.reverse ++ renderScan ctx rest none
      else renderScan ctx rest (some (c :: acc))

/-- Expansion of one template line: run the scanner from the outside
state. -/
def renderLineChars (ctx : List (String × String)) (l : List Char) : List Char :=
  renderScan ctx l none

/-- Modelled from the spec: the Template Renderer splits the template on
newline characters and expands each line independently, preserving blank
lines (spec section 4.3). -/
def renderTemplate (template : String) (ctx : List (String × String)) : List (List Char) :=
  (splitNl template.data).map (renderLineChars ctx)

/-- Modelled from the spec: the Header Composer wraps each rendered content
line in the comment style: a bare start token (or an empty block) for a
blank content line, otherwise the start token, one space, the content, and
for block styles one space and the end token (spec section 4.4). -/
def composeLine (style : String × String) (content : List Char) : List Char :=
  if isBlank content then
    if style.2 = "" then style.1.data else style.1.data ++ ' ' :: style.2.data
  else
    if style.2 = "" then style.1.data ++ ' ' :: content
    else style.1.data ++ ' ' :: (content ++ ' ' :: style.2.data)

/-- Modelled from the spec: the file-derived facts of a `TemplateContext`,
all relative to the project root with forward-slash separators
(spec section 3). -/
structure FileCtx where
  file_path : String
  file_name : String
  file_stem : String
  file_suffix : String
  file_dir : String
deriving DecidableEq

/-- Modelled from the spec: the configuration facts the engine consumes: a
header template and the config-derived context entries (author, version,
user-defined keys, and the date entry when date inclusion is enabled —
the date value is an opaque context string here since the model has no
clock) (spec sections 3 and 6). -/
structure Config where
  template : String
  vars : List (String × String)
deriving DecidableEq

/-- The file-derived context entries. -/
def fileVars (f : FileCtx) : List (String × String) :=
  [("file_path", f.file_path), ("file_name", f.file_name), ("file_stem", f.file_stem),
   ("file_suffix", f.file_suffix), ("file_dir", f.file_dir)]

/-- The full template context: file-derived facts then config facts. -/
def templateCtx (f : FileCtx) (cfg : Config) : List (String × String) :=
  fileVars f ++ cfg.vars

/-- Modelled from the spec: the default configuration used when no config
file overrides the template; its header template is the standard
`File:` line (spec sections 1 and 8). -/
def defaultConfig : Config :=
  { template := "File: \x7bfile_path\x7d", vars := [] }

/-- The literal comment lines inserted for a file: the rendered template
wrapped in the resolved comment style. -/
def composedHeader (f : FileCtx) (cfg : Config) (style : String × String) : List (List Char) :=
  (renderTemplate cfg.template (templateCtx f cfg)).map (composeLine style)

/-- Modelled from the spec: a `LeadingPreserved` line is a shebang, an XML
declaration, or a DOCTYPE, recognised on the very first line only
(spec section 3). -/
def isLeadingPreserved (l : List Char) : Bool :=
  leadsWith "#!".data l || leadsWith "<?xml".data l || leadsWith "<!DOCTYPE".data l

/-- Split off the preserved leading line, when the very first line is one. -/
def splitPreserved (lines : List (List Char)) : List (List Char) × List (List Char) :=
  match lines with
  | [] => ([], [])
  | l :: ls => if isLeadingPreserved l then ([l], ls) else ([], l :: ls)

/-- Remove the contiguous leading run of lines matching the header marker
under token `tok` (the offending wrong-style header lines,
spec section 4.5). -/
def removeRun (tok : String) : List (List Char) → List (List Char)
  | [] => []
  | l :: ls => if lineMarker l = some tok then removeRun tok ls else l :: ls

/-- Modelled from the spec: the per-file policy of the File Processor on
the file's lines: split off a preserved leading line, detect an existing
header in the remainder, and insert, keep, or replace accordingly
(spec section 4.5). -/
def processLines (f : FileCtx) (cfg : Config) (lines : List (List Char)) :
    Status × List (List Char) :=
  match findHeaderLine (splitPreserved lines).2 with
  | none =>
      (Status.modified,
        (splitPreserved lines).1
          ++ composedHeader f cfg (resolveStyle f.file_suffix lines)
          ++ (splitPreserved lines).2)
  | some it =>
      if it.2 = (resolveStyle f.file_suffix lines).1 then (Status.unchanged, lines)
      else
        (Status.modified,
          (splitPreserved lines).1
            ++ (splitPreserved lines).2.take it.1
            ++ composedHeader f cfg (resolveStyle f.file_suffix lines)
            ++ removeRun it.2 ((splitPreserved lines).2.drop it.1))

/-- Modelled from the spec: `process_file` reads the file text, applies the
per-file policy, and — except in dry-run mode — writes the complete new
content back; the second component is the file's bytes on storage after
the call (spec section 4.5). -/
def process_file (f : FileCtx) (cfg : Config) (content : String) (dry_run : Bool) :
    Status × String :=
  let r := processLines f cfg (splitNl content.data)
  (r.1, if dry_run then content else String.mk (joinNl r.2))

/-- Modelled from the spec: the counters aggregated by the Directory
Walker (spec section 4.6). -/
structure WalkStats where
  modified : Nat
  unchanged : Nat
  skipped : Nat
  errors : Nat
deriving DecidableEq

/-- Increment the counter for one per-file outcome. -/
def bumpStat (s : WalkStats) : Status → WalkStats
  | Status.modified => { s with modified := s.modified + 1 }
  | Status.unchanged => { s with unchanged := s.unchanged + 1 }
  | Status.skipped => { s with skipped := s.skipped + 1 }
  | Status.error => { s with errors := s.errors + 1 }

/-- Modelled from the spec: `walk_directory` applies the File Processor to
each eligible file in order and accumulates the per-status counts
(spec section 4.6). -/
def walk_directory (files : List (FileCtx × String)) (cfg : Config) (dry_run : Bool) :
    WalkStats :=
  files.foldl (fun acc fc => bumpStat acc (process_file fc.1 cfg fc.2 dry_run).1)
    ⟨0, 0, 0, 0⟩

/-- The legacy `pyannotate.process_file` proxy: it forwards its arguments
to `annot8.annotate_headers.process_file` unchanged and returns its result
(src/src/pyannotate/init). -/
def pyannotate_process_file (f : FileCtx) (cfg : Config) (content : String) (dry_run : Bool) :
    Status × String :=
  process_file f cfg content dry_run

/-- The legacy `pyannotate.walk_directory` proxy: it forwards its arguments
to `annot8.annotate_headers.walk_directory` unchanged
(src/src/pyannotate/init). -/
def pyannotate_walk_directory (files : List (FileCtx × String)) (cfg : Config)
    (dry_run : Bool) : WalkStats :=
  walk_directory files cfg dry_run

/-- Modelled from the spec: `annot8.cli.main` is not among the available
sources and the spec keeps the CLI out of scope, so the CLI entry point is
a parameter here; the legacy `pyannotate.main` proxy forwards its
arguments to it unchanged and returns its result
(src/src/pyannotate/init). -/
def pyannotate_main (cliMain : List String → Except String Nat) (args : List String) :
    Except String Nat :=
  cliMain args

/-- Number of lines equal to a given line. -/
def countLinesEq (target : List Char) (ls : List (List Char)) : Nat :=
  ls.countP (fun l => l = target)

/-- Boolean test that a character sequence occurs contiguously inside a
line. -/
def containsSeq (sub : List Char) : List Char → Bool
  | [] => leadsWith sub []
  | c :: rest => leadsWith sub (c :: rest) || containsSeq sub rest

/-- Number of lines containing a given character sequence. -/
def linesContaining (sub : List Char) (ls : List (List Char)) : Nat :=
  ls.countP (fun l => containsSeq sub l)

/-- Fixture: the file-derived facts for a file `app.py` at the project
root, as the tests create it. -/
def fileAppPy : FileCtx := ⟨"app.py", "app.py", "app", ".py", ""⟩

/-- Fixture: the file-derived facts for a file `cli.cjs` at the project
root, as the tests create it. -/
def fileCli : FileCtx := ⟨"cli.cjs", "cli.cjs", "cli", ".cjs", ""⟩

/-- Fixture: the file-derived facts for a file `wrong_hash.cjs` at the
project root, as the tests create it. -/
def fileWrongHash : FileCtx := ⟨"wrong_hash.cjs", "wrong_hash.cjs", "wrong_hash", ".cjs", ""⟩

/-- Fixture: the file-derived facts for a file `ecosystem.docker.cjs` at
the project root, as the tests create it. -/
def fileEco : FileCtx :=
  ⟨"ecosystem.docker.cjs", "ecosystem.docker.cjs", "ecosystem.docker", ".cjs", ""⟩

/-- Fixture: a configuration whose header template is a `Path:` line with
no `File:` marker in it. -/
def pathConfig : Config := ⟨"Path: \x7bfile_path\x7d", []⟩

/-- Fixture: a configuration whose header template uses an undefined
variable with no fallback. -/
def customConfig : Config := ⟨"Custom: \x7bcustom_var\x7d", []⟩

theorem leadsWith_iff {p l : List Char} : leadsWith p l = true ↔ ∃ r, l = p ++ r := by
  induction p generalizing l with
  | nil => exact iff_of_true rfl ⟨l, rfl⟩
  | cons a as ih =>
    cases l with
    | nil =>
      simp [leadsWith]
    | cons b bs =>
      by_cases hab : a = b
      · subst hab
        have h1 : leadsWith (a :: as) (a :: bs) = leadsWith as bs := by
          simp [leadsWith]
        rw [h1, ih]
        simp
      · have h1 : leadsWith (a :: as) (b :: bs) = false := by
          simp [leadsWith, hab]
        rw [h1]
        simp only [Bool.false_eq_true, false_iff, not_exists]
        intro r hr
        cases hr
        exact hab rfl

theorem splitNl_ne_nil (l : List Char) : splitNl l ≠ [] := by
  induction l with
  | nil => simp [splitNl]
  | cons c rest ih =>
    by_cases hc : c = '\n'
    · simp [splitNl, hc]
    · simp only [splitNl, if_neg hc]
      cases h : splitNl rest with
      | nil => simp
      | cons a as => simp

theorem mem_splitNl_no_nl {l : List Char} : ∀ x ∈ splitNl l, '\n' ∉ x := by
  induction l with
  | nil => intro x hx; simp [splitNl] at hx; simp [hx]
  | cons c rest ih =>
    intro x hx
    by_cases hc : c = '\n'
    · simp only [splitNl, if_pos hc, List.mem_cons] at hx
      rcases hx with h | h
      · simp [h]
      · exact ih x h
    · simp only [splitNl, if_neg hc] at hx
      cases h : splitNl rest with
      | nil => exact absurd h (splitNl_ne_nil rest)
      | cons a as =>
        rw [h] at hx
        rcases List.mem_cons.mp hx with h1 | h1
        · subst h1
          intro hmem
          rcases List.mem_cons.mp hmem with h2 | h2
          · exact hc h2.symm
          · exact ih a (h ▸ List.mem_cons_self a as) h2
        · exact ih x (h ▸ List.mem_cons_of_mem a h1)

theorem joinNl_splitNl (l : List Char) : joinNl (splitNl l) = l := by
  induction l with
  | nil => simp [splitNl, joinNl]
  | cons c rest ih =>
    by_cases hc : c = '\n'
    · subst hc
      simp only [splitNl, if_pos rfl]
      cases h : splitNl rest with
      | nil => exact absurd h (splitNl_ne_nil rest)
      | cons a as =>
        rw [h] at ih
        simp [joinNl, ih]
    · simp only [splitNl, if_neg hc]
      cases h : splitNl rest with
      | nil => exact absurd h (splitNl_ne_nil rest)
      | cons a as =>
        rw [h] at ih
        cases as with
        | nil => simp [joinNl] at ih ⊢; simp [ih]
        | cons b bs => simp [joinNl] at ih ⊢; simp [ih]

theorem splitNl_joinNl (ls : List (List Char)) (hne : ls ≠ [])
    (hnl : ∀ x ∈ ls, '\n' ∉ x) : splitNl (joinNl ls) = ls := by
  induction ls with
  | nil => exact absurd rfl hne
  | cons a as ih =>
    have ha : '\n' ∉ a := hnl a (List.mem_cons_self a as)
    cases as with
    | nil =>
      simp only [joinNl]
      clear ih hne hnl
      induction a with
      | nil => simp [splitNl]
      | cons c cs ihc =>
        have hc : c ≠ '\n' := fun h => ha (h ▸ List.mem_cons_self c cs)
        have hcs : '\n' ∉ cs := fun h => ha (List.mem_cons_of_mem c h)
        simp only [splitNl, if_neg hc, ihc hcs]
    | cons b bs =>
      have hrec : splitNl (joinNl (b :: bs)) = b :: bs := by
        refine ih (by simp) ?_
        intro x hx
        exact hnl x (List.mem_cons_of_mem a hx)
      simp only [joinNl]
      clear ih hne hnl
      induction a with
      | nil => simp [splitNl, hrec]
      | cons c cs ihc =>
        have hc : c ≠ '\n' := fun h => ha (h ▸ List.mem_cons_self c cs)
        have hcs : '\n' ∉ cs := fun h => ha (List.mem_cons_of_mem c h)
        have hA := ihc hcs
        rw [List.cons_append, splitNl, if_neg hc, hA]

theorem isBlank_cons_false {c : Char} (hc : isWs c = false) (l : List Char) :
    isBlank (c :: l) = false := by
  unfold isBlank trimChars dropWs
  rw [List.dropWhile_cons, hc]
  simp only [Bool.false_eq_true, if_false]
  cases hdw : (c :: l).reverse.dropWhile isWs with
  | nil =>
    exfalso
    have hall := List.dropWhile_eq_nil_iff.mp hdw
    have hcmem : c ∈ (c :: l).reverse := by simp
    have := hall c hcmem
    rw [hc] at this
    cases this
  | cons d ds => simp

theorem isBlank_false_of_lead {l : List Char} {c : Char} {cs : List Char}
    (hlead : leadsWith (c :: cs) (trimChars l) = true) : isBlank l = false := by
  cases hd : trimChars l with
  | nil => rw [hd] at hlead; exact absurd hlead (by simp [leadsWith])
  | cons a as => unfold isBlank; rw [hd]; rfl

theorem lineMarker_some_facts {l : List Char} {t : String} (h : lineMarker l = some t) :
    t ∈ markerTokens ∧ leadsWith t.data (trimChars l) = true := by
  unfold lineMarker at h
  refine ⟨List.mem_of_find?_eq_some h, ?_⟩
  have hp := List.find?_some h
  unfold markerAt at hp
  simp only [Bool.and_eq_true] at hp
  exact hp.1

theorem isBlank_false_of_marker {l : List Char} {t : String} (h : lineMarker l = some t) :
    isBlank l = false := by
  obtain ⟨hmem, hlead⟩ := lineMarker_some_facts h
  have ht : t.data ≠ [] := by fin_cases hmem <;> decide
  cases hd : t.data with
  | nil => exact absurd hd ht
  | cons c cs => exact isBlank_false_of_lead (hd ▸ hlead)

theorem mem_map_snd_of_lookup {l : List (String × (String × String))} {k : String}
    {v : String × String} (h : List.lookup k l = some v) : v ∈ l.map Prod.snd := by
  induction l with
  | nil => simp [List.lookup] at h
  | cons p ps ih =>
    obtain ⟨k1, v1⟩ := p
    rw [List.lookup] at h
    cases hkk : (k == k1) with
    | true => rw [hkk] at h; cases h; simp
    | false =>
      rw [hkk] at h
      simp only [List.map_cons, List.mem_cons]
      exact Or.inr (ih h)

theorem lookup_style_mem {ext : String} {s : String × String}
    (h : List.lookup ext extensionStyles = some s) : s ∈ knownStyles := by
  have hm := mem_map_snd_of_lookup h
  have hsub : ∀ x ∈ extensionStyles.map Prod.snd, x ∈ knownStyles := by decide
  exact hsub s hm

theorem sniffToken_mem (l : List Char) : sniffToken l ∈ sniffStyles := by
  unfold sniffToken
  split_ifs <;> simp [sniffStyles]

theorem sniffLines_mem (ls : List (List Char)) : sniffLines ls ∈ sniffStyles := by
  induction ls with
  | nil => simp [sniffLines, sniffStyles]
  | cons l ls ih =>
    unfold sniffLines
    split_ifs with h
    · exact ih
    · exact sniffToken_mem l

theorem sniffStyles_sub_known : ∀ s ∈ sniffStyles, s ∈ knownStyles := by decide

theorem resolveStyle_mem (ext : String) (lines : List (List Char)) :
    resolveStyle ext lines ∈ knownStyles := by
  unfold resolveStyle
  cases h : List.lookup ext extensionStyles with
  | some s => exact lookup_style_mem h
  | none => exact sniffStyles_sub_known _ (sniffLines_mem _)

theorem resolveStyle_of_none {ext : String} (h : List.lookup ext extensionStyles = none)
    (lines : List (List Char)) : resolveStyle ext lines = sniffLines (dropShebang lines) := by
  unfold resolveStyle
  rw [h]

theorem resolveStyle_mem_sniff {ext : String} (h : List.lookup ext extensionStyles = none)
    (lines : List (List Char)) : resolveStyle ext lines ∈ sniffStyles := by
  rw [resolveStyle_of_none h]
  exact sniffLines_mem _

theorem sniffToken_eq {style : String × String} (hmem : style ∈ sniffStyles)
    {l : List Char} (hlead : leadsWith style.1.data (trimChars l) = true) :
    sniffToken l = style := by
  fin_cases hmem
  · unfold sniffToken
    rw [hlead]
    rfl
  · obtain ⟨r, hr⟩ := leadsWith_iff.mp hlead
    unfold sniffToken
    rw [hr]
    simp [leadsWith]
  · obtain ⟨r, hr⟩ := leadsWith_iff.mp hlead
    unfold sniffToken
    rw [hr]
    simp [leadsWith]

theorem composeLine_shape (style : String × String) (r : List Char) :
    composeLine style r = style.1.data ∨
      ∃ t, composeLine style r = style.1.data ++ ' ' :: t := by
  unfold composeLine
  split_ifs <;> first
    | (left; rfl)
    | (right; exact ⟨_, rfl⟩)

theorem composeLine_not_preserved {style : String × String} (hmem : style ∈ knownStyles)
    (r : List Char) : isLeadingPreserved (composeLine style r) = false := by
  rcases composeLine_shape style r with h | ⟨t, h⟩ <;> rw [h] <;> fin_cases hmem <;>
    simp [isLeadingPreserved, leadsWith]

theorem not_shebang_of_not_preserved {l : List Char} (h : isLeadingPreserved l = false) :
    isShebang l = false := by
  unfold isLeadingPreserved at h
  rcases Bool.or_eq_false_iff.mp h with ⟨h12, _⟩
  rcases Bool.or_eq_false_iff.mp h12 with ⟨h1, _⟩
  exact h1

theorem isBlank_false_of_preserved {l : List Char} (h : isLeadingPreserved l = true) :
    isBlank l = false := by
  unfold isLeadingPreserved at h
  rcases Bool.or_eq_true_iff.mp h with h12 | h3
  · rcases Bool.or_eq_true_iff.mp h12 with h1 | h2
    · obtain ⟨r, hr⟩ := leadsWith_iff.mp h1
      rw [hr]
      exact isBlank_cons_false (by decide) _
    · obtain ⟨r, hr⟩ := leadsWith_iff.mp h2
      rw [hr]
      exact isBlank_cons_false (by decide) _
  · obtain ⟨r, hr⟩ := leadsWith_iff.mp h3
    rw [hr]
    exact isBlank_cons_false (by decide) _

theorem splitPreserved_cons_true {l0 : List Char} (h : isLeadingPreserved l0 = true)
    (ls : List (List Char)) : splitPreserved (l0 :: ls) = ([l0], ls) := by
  simp [splitPreserved, h]

theorem splitPreserved_cons_false {l0 : List Char} (h : isLeadingPreserved l0 = false)
    (ls : List (List Char)) : splitPreserved (l0 :: ls) = ([], l0 :: ls) := by
  simp [splitPreserved, h]

theorem findHeaderLine_cons_some {l0 : List Char} {t : String} (h : lineMarker l0 = some t)
    (rest : List (List Char)) : findHeaderLine (l0 :: rest) = some (0, t) := by
  simp only [findHeaderLine, h]

theorem findHeaderLine_cons_cons {l0 l1 : List Char} {t : String}
    (h0 : lineMarker l0 = none) (h1 : lineMarker l1 = some t) (rest : List (List Char)) :
    findHeaderLine (l0 :: l1 :: rest) = some (1, t) := by
  simp only [findHeaderLine, h0, h1]

theorem findHeaderLine_some {l : List (List Char)} {it : Nat × String}
    (h : findHeaderLine l = some it) :
    (∃ l0 r, l = l0 :: r ∧ lineMarker l0 = some it.2 ∧ it.1 = 0) ∨
    (∃ l0 l1 r, l = l0 :: l1 :: r ∧ lineMarker l0 = none ∧
      lineMarker l1 = some it.2 ∧ it.1 = 1) := by
  cases l with
  | nil => simp [findHeaderLine] at h
  | cons l0 r =>
    cases hm0 : lineMarker l0 with
    | some t =>
      rw [findHeaderLine_cons_some hm0] at h
      cases h
      exact Or.inl ⟨l0, r, rfl, hm0, rfl⟩
    | none =>
      cases r with
      | nil => simp [findHeaderLine, hm0] at h
      | cons l1 r1 =>
        cases hm1 : lineMarker l1 with
        | some t =>
          rw [findHeaderLine_cons_cons hm0 hm1] at h
          cases h
          exact Or.inr ⟨l0, l1, r1, rfl, hm0, hm1, rfl⟩
        | none => simp [findHeaderLine, hm0, hm1] at h

theorem removeRun_subset (t : String) (l : List (List Char)) : removeRun t l ⊆ l := by
  induction l with
  | nil => simp [removeRun]
  | cons a as ih =>
    unfold removeRun
    by_cases h : lineMarker a = some t
    · rw [if_pos h]
      exact ih.trans (List.subset_cons_self a as)
    · rw [if_neg h]
      exact List.Subset.refl _

theorem sniffLines_cons_blank {l : List Char} (h : isBlank l = true)
    (ls : List (List Char)) : sniffLines (l :: ls) = sniffLines ls := by
  simp [sniffLines, h]

theorem sniffLines_cons_nonblank {l : List Char} (h : isBlank l = false)
    (ls : List (List Char)) : sniffLines (l :: ls) = sniffToken l := by
  simp [sniffLines, h]

theorem dropShebang_cons_true {l : List Char} (h : isShebang l = true)
    (ls : List (List Char)) : dropShebang (l :: ls) = ls := by
  simp [dropShebang, h]

theorem dropShebang_cons_false {l : List Char} (h : isShebang l = false)
    (ls : List (List Char)) : dropShebang (l :: ls) = l :: ls := by
  simp [dropShebang, h]

theorem composedHeader_ne_nil (f : FileCtx) (cfg : Config) (style : String × String) :
    composedHeader f cfg style ≠ [] := by
  unfold composedHeader renderTemplate
  simp [splitNl_ne_nil]

theorem processLines_unchanged_of (f : FileCtx) (cfg : Config) (out : List (List Char))
    (it : Nat × String) (hfind : findHeaderLine (splitPreserved out).2 = some it)
    (hmatch : it.2 = (resolveStyle f.file_suffix out).1) :
    processLines f cfg out = (Status.unchanged, out) := by
  simp only [processLines, hfind]
  rw [if_pos hmatch]

/-- C4: for every file with extension `.cjs` or `.mjs` the resolved
comment style is `("//", "")` regardless of the file's content, and every
composed header line starts with `//` and never with `#` or `/*`. -/
theorem c4_cjs_mjs_style :
    ∀ lines : List (List Char),
      resolveStyle ".cjs" lines = ("//", "") ∧ resolveStyle ".mjs" lines = ("//", "") ∧
      ∀ r : List Char,
        leadsWith "//".data (composeLine ("//", "") r) = true ∧
        leadsWith "#".data (composeLine ("//", "") r) = false ∧
        leadsWith "/*".data (composeLine ("//", "") r) = false := by
  intro lines
  refine ⟨rfl, rfl, ?_⟩
  intro r
  unfold composeLine
  by_cases hb : isBlank r = true
  · simp [hb, leadsWith]
  · simp only [Bool.not_eq_true] at hb
    simp [hb, leadsWith]

/-- C8: when the extension is unknown, the resolved style is sniffed with
the shebang line skipped: it equals the sniff of the remaining lines, it
does not depend on the shebang line's content, the first non-blank line
decides via its leading token, and a line with no recognised token
defaults to the hash style. -/
theorem c8_sniff_skips_shebang (ext : String) (sheb : List Char) (rest : List (List Char))
    (hext : List.lookup ext extensionStyles = none) (hsheb : isShebang sheb = true) :
    resolveStyle ext (sheb :: rest) = sniffLines rest ∧
    (∀ sheb2 : List Char, isShebang sheb2 = true →
      resolveStyle ext (sheb2 :: rest) = resolveStyle ext (sheb :: rest)) ∧
    (∀ (l : List Char) (ls : List (List Char)), isBlank l = false →
      sniffLines (l :: ls) = sniffToken l) ∧
    (∀ l : List Char,
      leadsWith "//".data (trimChars l) = false →
      leadsWith "#".data (trimChars l) = false →
      leadsWith "--".data (trimChars l) = false →
      sniffToken l = ("#", "")) := by
  refine ⟨?_, ?_, ?_, ?_⟩
  · simp [resolveStyle, hext, dropShebang, hsheb]
  · intro sheb2 hsheb2
    simp [resolveStyle, hext, dropShebang, hsheb, hsheb2]
  · intro l ls hbl
    simp [sniffLines, hbl]
  · intro l h1 h2 h3
    simp [sniffToken, h1, h2, h3]

/-- C8 witness: a concrete unknown-extension file whose first line is a
shebang and whose second line starts with a double slash sniffs to the
double-slash style. -/
theorem c8_sniff_skips_shebang_witness :
    resolveStyle ".weird"
      ("#!/usr/bin/env node".data :: ["// some comment".data, "const x = 1;".data, []]) =
      sniffLines ["// some comment".data, "const x = 1;".data, []] ∧
    resolveStyle ".weird"
      ("#!/usr/bin/env node".data :: ["// some comment".data, "const x = 1;".data, []]) =
      ("//", "") := by
  have h := c8_sniff_skips_shebang ".weird" "#!/usr/bin/env node".data
    ["// some comment".data, "const x = 1;".data, []] (by decide) (by decide)
  exact ⟨h.1, by rw [h.1]; decide⟩

/-- C5: dry-run is pure: with `dry_run` set, `process_file` leaves the
stored bytes exactly as they were and returns the same status a real run
would return. -/
theorem c5_dry_run_pure (f : FileCtx) (cfg : Config) (content : String) :
    (process_file f cfg content true).2 = content ∧
    (process_file f cfg content true).1 = (process_file f cfg content false).1 := by
  constructor <;> rfl

theorem breakAtBar_append {a : List Char} (ha : '|' ∉ a) (b : List Char) :
    breakAtBar (a ++ '|' :: b) = some (a, b) := by
  induction a with
  | nil => simp [breakAtBar]
  | cons c cs ih =>
    have hc : c ≠ '|' := fun h => ha (h ▸ List.mem_cons_self c cs)
    have hcs : '|' ∉ cs := fun h => ha (List.mem_cons_of_mem c h)
    simp [breakAtBar, hc, ih hcs]

theorem breakAtBar_none {a : List Char} (ha : '|' ∉ a) : breakAtBar a = none := by
  induction a with
  | nil => rfl
  | cons c cs ih =>
    have hc : c ≠ '|' := fun h => ha (h ▸ List.mem_cons_self c cs)
    have hcs : '|' ∉ cs := fun h => ha (List.mem_cons_of_mem c h)
    simp [breakAtBar, hc, ih hcs]

theorem renderLineChars_cons_of_ne (ctx : List (String × String)) {c : Char}
    (hc : c ≠ '{') (rest : List Char) :
    renderLineChars ctx (c :: rest) = c :: renderLineChars ctx rest := by
  simp [renderLineChars, renderScan, hc]

theorem renderScan_placeholder (ctx : List (String × String)) {a : List Char}
    (ha : '}' ∉ a) (b : List Char) :
    ∀ acc, renderScan ctx (a ++ '}' :: b) (some acc)
      = expandPlaceholder ctx (acc.reverse ++ a) ++ renderScan ctx b none := by
  induction a with
  | nil => intro acc; simp [renderScan]
  | cons c cs ih =>
    intro acc
    have hc : c ≠ '}' := fun h => ha (h ▸ List.mem_cons_self c cs)
    have hcs : '}' ∉ cs := fun h => ha (List.mem_cons_of_mem c h)
    simp only [List.cons_append, renderScan, if_neg hc, List.append_eq]
    rw [ih hcs (c :: acc)]
    simp

theorem renderLineChars_brace (ctx : List (String × String)) {inside : List Char}
    (h : '}' ∉ inside) (post : List Char) :
    renderLineChars ctx ('{' :: (inside ++ '}' :: post))
      = expandPlaceholder ctx inside ++ renderLineChars ctx post := by
  show renderScan ctx ('{' :: (inside ++ '}' :: post)) none = _
  have h0 : renderScan ctx ('{' :: (inside ++ '}' :: post)) none
      = renderScan ctx (inside ++ '}' :: post) (some []) := by
    simp [renderScan]
  rw [h0, renderScan_placeholder ctx h post []]
  simp [renderLineChars]

theorem renderLineChars_append (ctx : List (String × String)) {pre : List Char}
    (hpre : '{' ∉ pre) (l : List Char) :
    renderLineChars ctx (pre ++ l) = pre ++ renderLineChars ctx l := by
  induction pre with
  | nil => rfl
  | cons c cs ih =>
    have hc : c ≠ '{' := fun h => hpre (h ▸ List.mem_cons_self c cs)
    have hcs : '{' ∉ cs := fun h => hpre (List.mem_cons_of_mem c h)
    rw [List.cons_append, renderLineChars_cons_of_ne ctx hc, ih hcs, List.cons_append]

/-- C6: fallback rendering: in any template line, a `name|default`
placeholder in braces is replaced by the context value of `name` when it
is present and non-empty, and by the literal default text otherwise
(`fallbackValue` is exactly that case split), while the text around the
placeholder renders independently. -/
theorem c6_fallback_rendering (ctx : List (String × String)) (pre name dflt post : List Char)
    (hpre : '{' ∉ pre) (hname : '}' ∉ name) (hbar : '|' ∉ name) (hdflt : '}' ∉ dflt) :
    renderLineChars ctx (pre ++ '{' :: (name ++ '|' :: (dflt ++ '}' :: post)))
      = pre ++ fallbackValue ctx (String.mk name) dflt ++ renderLineChars ctx post := by
  rw [renderLineChars_append ctx hpre]
  have hre : name ++ '|' :: (dflt ++ '}' :: post) = (name ++ '|' :: dflt) ++ '}' :: post := by
    simp
  have hnb : '}' ∉ name ++ '|' :: dflt := by
    intro hmem
    rcases List.mem_append.mp hmem with h | h
    · exact hname h
    · rcases List.mem_cons.mp h with h1 | h1
      · cases h1
      · exact hdflt h1
  rw [hre, renderLineChars_brace ctx hnb post]
  have hexp : expandPlaceholder ctx (name ++ '|' :: dflt)
      = fallbackValue ctx (String.mk name) dflt := by
    unfold expandPlaceholder
    rw [breakAtBar_append hbar dflt]
  rw [hexp, List.append_assoc]

/-- C6 witness: the template line with placeholder `author` and default
`Anonymous` renders `Anonymous` with no author in context and `Bob` with
the author bound to `Bob`. -/
theorem c6_fallback_rendering_witness :
    renderLineChars [] "Author: \x7bauthor|Anonymous\x7d".data = "Author: Anonymous".data ∧
    renderLineChars [("author", "Bob")] "Author: \x7bauthor|Anonymous\x7d".data
      = "Author: Bob".data := by
  have hsplit : ("Author: \x7bauthor|Anonymous\x7d".data : List Char)
      = "Author: ".data ++ '{' :: ("author".data ++ '|' :: ("Anonymous".data ++ '}' :: [])) := by
    decide
  constructor
  · have h := c6_fallback_rendering [] "Author: ".data "author".data "Anonymous".data []
      (by decide) (by decide) (by decide) (by decide)
    rw [hsplit, h]
    decide
  · have h := c6_fallback_rendering [("author", "Bob")] "Author: ".data "author".data
      "Anonymous".data [] (by decide) (by decide) (by decide) (by decide)
    rw [hsplit, h]
    decide

/-- C7: an unresolvable placeholder never fails a file: a braced name that
is absent from the context (and has no fallback) renders as the empty
string and rendering continues with the rest of the line; a file whose
whole template is such a placeholder line is still annotated and
processing returns `modified`. -/
theorem c7_missing_placeholder (ctx : List (String × String)) (pre name post : List Char)
    (hpre : '{' ∉ pre) (hname : '}' ∉ name) (hbar : '|' ∉ name)
    (habs : lookupCtx ctx (String.mk name) = none) :
    renderLineChars ctx (pre ++ '{' :: (name ++ '}' :: post))
      = pre ++ renderLineChars ctx post ∧
    process_file fileAppPy customConfig "x = 1\n" false
      = (Status.modified, "# Custom: \nx = 1\n") := by
  constructor
  · rw [renderLineChars_append ctx hpre]
    rw [renderLineChars_brace ctx hname post]
    have hexp : expandPlaceholder ctx name = [] := by
      unfold expandPlaceholder
      rw [breakAtBar_none hbar]
      simp [habs]
    rw [hexp, List.nil_append]
  · decide

/-- C7 witness: with an empty context, the placeholder line with the
undefined `custom_var` renders as its literal prefix alone, and the file
is still annotated. -/
theorem c7_missing_placeholder_witness :
    renderLineChars [] "Custom: \x7bcustom_var\x7d".data = "Custom: ".data ∧
    process_file fileAppPy customConfig "x = 1\n" false
      = (Status.modified, "# Custom: \nx = 1\n") := by
  have h := c7_missing_placeholder [] "Custom: ".data "custom_var".data []
    (by decide) (by decide) (by decide) (by decide)
  refine ⟨?_, h.2⟩
  have hsplit : ("Custom: \x7bcustom_var\x7d".data : List Char)
      = "Custom: ".data ++ '{' :: ("custom_var".data ++ '}' :: []) := by
    decide
  rw [hsplit, h.1]
  decide

theorem composeLine_line_nonblank {style : String × String} (hline : style.2 = "")
    {c : Char} (hc : isWs c = false) (t : List Char) :
    composeLine style (c :: t) = style.1.data ++ ' ' :: (c :: t) := by
  unfold composeLine
  rw [isBlank_cons_false hc, hline]
  simp

theorem render_default_template (f : FileCtx) (cfg : Config) :
    renderLineChars (templateCtx f cfg) "File: \x7bfile_path\x7d".data
      = "File: ".data ++ f.file_path.data := by
  have hs : ("File: \x7bfile_path\x7d".data : List Char)
      = "File: ".data ++ '{' :: ("file_path".data ++ '}' :: []) := by decide
  rw [hs, renderLineChars_append _ (by decide), renderLineChars_brace _ (by decide) []]
  have hexp : expandPlaceholder (templateCtx f cfg) "file_path".data = f.file_path.data := by
    unfold expandPlaceholder
    rw [breakAtBar_none (by decide)]
    have hk : String.mk "file_path".data = "file_path" := rfl
    rw [hk]
    have hl : lookupCtx (templateCtx f cfg) "file_path" = some f.file_path := by
      simp [lookupCtx, templateCtx, fileVars, List.lookup]
    rw [hl]
    rfl
  rw [hexp]
  simp [renderLineChars, renderScan]

theorem composedHeader_default_slash (f : FileCtx) :
    composedHeader f defaultConfig ("//", "")
      = [("// File: ".data ++ f.file_path.data)] := by
  unfold composedHeader renderTemplate
  have hs : splitNl defaultConfig.template.data = ["File: \x7bfile_path\x7d".data] := by decide
  rw [hs]
  simp only [List.map_cons, List.map_nil]
  rw [render_default_template f defaultConfig]
  have hcons : ("File: ".data ++ f.file_path.data : List Char)
      = 'F' :: ("ile: ".data ++ f.file_path.data) := rfl
  rw [hcons, composeLine_line_nonblank rfl (by decide)]
  rfl

theorem containsSeq_of_lead {sub l : List Char} (h : leadsWith sub l = true) :
    containsSeq sub l = true := by
  cases l with
  | nil => simpa [containsSeq] using h
  | cons c rest => simp [containsSeq, h]

theorem mem_of_containsSeq {sub l : List Char} (h : containsSeq sub l = true) :
    ∀ c ∈ sub, c ∈ l := by
  induction l with
  | nil =>
    intro c hc
    cases sub with
    | nil => cases hc
    | cons s ss => simp [containsSeq, leadsWith] at h
  | cons a as ih =>
    intro c hc
    simp only [containsSeq, Bool.or_eq_true] at h
    rcases h with h | h
    · obtain ⟨r, hr⟩ := leadsWith_iff.mp h
      rw [hr]
      exact List.mem_append.mpr (Or.inl hc)
    · exact List.mem_cons_of_mem a (ih h c hc)

/-- C10: a leading block comment without a `File:` marker is not mistaken
for a header: for every `.cjs` file whose first line is not a preserved
line and whose first two lines carry no header marker, the default header
is inserted at the very top with all original lines unchanged after it;
on the concrete JSDoc file the result starts with the double-slash header,
keeps the JSDoc block intact, and contains no `/* File:` line. -/
theorem c10_jsdoc_not_header (f : FileCtx) (l0 l1 : List Char) (rest : List (List Char))
    (hsuf : f.file_suffix = ".cjs")
    (hnp : isLeadingPreserved l0 = false)
    (hm0 : lineMarker l0 = none) (hm1 : lineMarker l1 = none) :
    processLines f defaultConfig (l0 :: l1 :: rest)
      = (Status.modified, ("// File: ".data ++ f.file_path.data) :: l0 :: l1 :: rest) ∧
    process_file fileEco defaultConfig
        "/**\n * PM2 config for Docker.\n */\nmodule.exports = \x7b\x7d;\n" false
      = (Status.modified,
         "// File: ecosystem.docker.cjs\n/**\n * PM2 config for Docker.\n */\nmodule.exports = \x7b\x7d;\n") ∧
    linesContaining "/* File:".data
        (splitNl ("// File: ecosystem.docker.cjs\n/**\n * PM2 config for Docker.\n */\nmodule.exports = \x7b\x7d;\n").data)
      = 0 := by
  refine ⟨?_, by decide, by decide⟩
  have hsp := splitPreserved_cons_false hnp (l1 :: rest)
  have hfind : findHeaderLine (l0 :: l1 :: rest) = none := by
    simp [findHeaderLine, hm0, hm1]
  have hstyle : resolveStyle f.file_suffix (l0 :: l1 :: rest) = ("//", "") := by
    rw [hsuf]
    exact rfl
  simp [processLines, hsp, hfind, hstyle, composedHeader_default_slash]

/-- C10 witness: the general insertion statement applied to the concrete
JSDoc block lines. -/
theorem c10_jsdoc_not_header_witness :
    processLines fileEco defaultConfig
        ["/**".data, " * PM2 config for Docker.".data, " */".data,
         "module.exports = \x7b\x7d;".data, []]
      = (Status.modified,
         ("// File: ".data ++ fileEco.file_path.data) ::
           ["/**".data, " * PM2 config for Docker.".data, " */".data,
            "module.exports = \x7b\x7d;".data, []]) :=
  (c10_jsdoc_not_header fileEco "/**".data " * PM2 config for Docker.".data
    [" */".data, "module.exports = \x7b\x7d;".data, []]
    rfl (by decide) (by decide) (by decide)).1

/-- C2 (amended): wrong-style repair: on a file whose first line carries a
hash header marker and whose resolved style is the double-slash style, the
offending contiguous hash-marker run is removed, a freshly composed
double-slash header is inserted at the same position and the result is
`modified`; provided the remaining lines mention no hash or double-slash
`File:` marker text and the path contains no hash character, the result
contains exactly one double-slash `File:` header line and no line
containing `# File:`. -/
theorem c2_wrong_style_repair (f : FileCtx) (l0 : List Char) (rest : List (List Char))
    (hm : lineMarker l0 = some "#")
    (hnp : isLeadingPreserved l0 = false)
    (hstyle : resolveStyle f.file_suffix (l0 :: rest) = ("//", ""))
    (hpath : '#' ∉ f.file_path.data)
    (hclean : ∀ l ∈ rest, containsSeq "# File:".data l = false ∧
      containsSeq "// File:".data l = false) :
    processLines f defaultConfig (l0 :: rest)
      = (Status.modified, ("// File: ".data ++ f.file_path.data) :: removeRun "#" rest) ∧
    countLinesEq ("// File: ".data ++ f.file_path.data)
      (("// File: ".data ++ f.file_path.data) :: removeRun "#" rest) = 1 ∧
    linesContaining "# File:".data
      (("// File: ".data ++ f.file_path.data) :: removeRun "#" rest) = 0 := by
  have hhash : containsSeq "# File:".data ("// File: ".data ++ f.file_path.data) = false := by
    cases hcs : containsSeq "# File:".data ("// File: ".data ++ f.file_path.data) with
    | false => rfl
    | true =>
      exfalso
      have hmem := mem_of_containsSeq hcs '#' (by decide)
      rcases List.mem_append.mp hmem with h | h
      · exact absurd h (by decide)
      · exact hpath h
  refine ⟨?_, ?_, ?_⟩
  · have hsp := splitPreserved_cons_false hnp rest
    have hfind := findHeaderLine_cons_some hm rest
    simp only [processLines, hsp, hfind, hstyle, composedHeader_default_slash]
    have hne : ¬ (((0 : Nat), ("#" : String)).2 = (("//", ("" : String))).1) := by decide
    rw [if_neg hne]
    simp [removeRun, hm]
  · unfold countLinesEq
    rw [List.countP_cons]
    have hzero : List.countP
        (fun l => decide (l = ("// File: ".data ++ f.file_path.data)))
        (removeRun "#" rest) = 0 := by
      rw [List.countP_eq_zero]
      intro l hl
      have hmem : l ∈ rest := removeRun_subset "#" rest hl
      have h2 := (hclean l hmem).2
      simp only [decide_eq_true_eq]
      intro heq
      have hpre : ("// File: ".data ++ f.file_path.data : List Char)
          = "// File:".data ++ (' ' :: f.file_path.data) := rfl
      have hlead : leadsWith "// File:".data l = true := by
        rw [heq, hpre]
        exact leadsWith_iff.mpr ⟨' ' :: f.file_path.data, rfl⟩
      rw [containsSeq_of_lead hlead] at h2
      cases h2
    rw [hzero]
    simp
  · unfold linesContaining
    rw [List.countP_cons]
    have hz : List.countP (fun l => containsSeq "# File:".data l)
        (removeRun "#" rest) = 0 := by
      rw [List.countP_eq_zero]
      intro l hl
      have hmem : l ∈ rest := removeRun_subset "#" rest hl
      simp [(hclean l hmem).1]
    rw [hz, hhash]
    rfl

/-- C2 witness: the repair statement applied to the concrete
`wrong_hash.cjs` file of the test suite. -/
theorem c2_wrong_style_repair_witness :
    processLines fileWrongHash defaultConfig
        ["# File: wrong_hash.cjs".data, "module.exports = x;".data, []]
      = (Status.modified,
         ("// File: ".data ++ fileWrongHash.file_path.data) ::
           removeRun "#" ["module.exports = x;".data, []]) ∧
    countLinesEq ("// File: ".data ++ fileWrongHash.file_path.data)
      (("// File: ".data ++ fileWrongHash.file_path.data) ::
        removeRun "#" ["module.exports = x;".data, []]) = 1 ∧
    linesContaining "# File:".data
      (("// File: ".data ++ fileWrongHash.file_path.data) ::
        removeRun "#" ["module.exports = x;".data, []]) = 0 :=
  c2_wrong_style_repair fileWrongHash "# File: wrong_hash.cjs".data
    ["module.exports = x;".data, []] (by decide) (by decide) (by decide) (by decide)
    (by decide)

/-- C2 counterexample: the claim as stated fails when another `# File:`
line sits beyond the two-line detection window: the repair rewrites only
the offending leading run, the stray `# File:` line survives, so the
output does not have zero lines containing `# File:`. -/
theorem c2_counterexample :
    resolveStyle fileWrongHash.file_suffix
        (splitNl "# File: wrong_hash.cjs\nmodule.exports = x;\n# File: stray\n".data)
      = ("//", "") ∧
    lineMarker "# File: wrong_hash.cjs".data = some "#" ∧
    process_file fileWrongHash defaultConfig
        "# File: wrong_hash.cjs\nmodule.exports = x;\n# File: stray\n" false
      = (Status.modified, "// File: wrong_hash.cjs\nmodule.exports = x;\n# File: stray\n") ∧
    linesContaining "# File:".data
        (splitNl "// File: wrong_hash.cjs\nmodule.exports = x;\n# File: stray\n".data)
      = 1 := by
  exact ⟨by decide, by decide, by decide, by decide⟩

/-- C3 (amended): leading-line preservation: when the very first line is a
shebang, an XML declaration, or a DOCTYPE, that exact line stays the first
line of the output whatever the header decision is, and when the remainder
has no detected header the freshly composed header is inserted immediately
after it. -/
theorem c3_leading_line_preserved (f : FileCtx) (cfg : Config) (l0 : List Char)
    (rest : List (List Char)) (hp : isLeadingPreserved l0 = true) :
    (processLines f cfg (l0 :: rest)).2.head? = some l0 ∧
    (findHeaderLine rest = none →
      processLines f cfg (l0 :: rest)
        = (Status.modified,
           l0 :: (composedHeader f cfg (resolveStyle f.file_suffix (l0 :: rest)) ++ rest))) := by
  have hsp := splitPreserved_cons_true hp rest
  constructor
  · cases hfind : findHeaderLine rest with
    | none => simp [processLines, hsp, hfind]
    | some it =>
      by_cases hit : it.2 = (resolveStyle f.file_suffix (l0 :: rest)).1
      · simp [processLines, hsp, hfind, hit]
      · simp [processLines, hsp, hfind, hit]
  · intro hfind
    simp [processLines, hsp, hfind]

/-- C3 witness: the preservation statement applied to the concrete shebang
`.cjs` file of the test suite. -/
theorem c3_leading_line_preserved_witness :
    (processLines fileCli defaultConfig
        ["#!/usr/bin/env node".data, "console.log(1);".data, []]).2.head?
      = some "#!/usr/bin/env node".data :=
  (c3_leading_line_preserved fileCli defaultConfig "#!/usr/bin/env node".data
    ["console.log(1);".data, []] (by decide)).1

/-- C3 counterexample: the claim as stated fails for a wrong-style header
on the third line: the shebang stays first, but the freshly composed
header is re-inserted at the replaced header's position — the third line —
not immediately after the shebang; line two of the output is still the
original code line. -/
theorem c3_counterexample :
    process_file fileCli defaultConfig
        "#!/usr/bin/env node\nconst x = 1;\n# File: cli.cjs\n" false
      = (Status.modified, "#!/usr/bin/env node\nconst x = 1;\n// File: cli.cjs\n") ∧
    (splitNl "#!/usr/bin/env node\nconst x = 1;\n// File: cli.cjs\n".data)[1]?
      = some "const x = 1;".data ∧
    ("const x = 1;".data ≠ ("// File: ".data ++ fileCli.file_path.data)) ∧
    composedHeader fileCli defaultConfig ("//", "")
      = [("// File: ".data ++ fileCli.file_path.data)] := by
  exact ⟨by decide, by decide, by decide, composedHeader_default_slash fileCli⟩

theorem processLines_eq_none (f : FileCtx) (cfg : Config) (lines : List (List Char))
    (hfind : findHeaderLine (splitPreserved lines).2 = none) :
    processLines f cfg lines
      = (Status.modified,
         (splitPreserved lines).1
           ++ composedHeader f cfg (resolveStyle f.file_suffix lines)
           ++ (splitPreserved lines).2) := by
  simp only [processLines, hfind]

theorem processLines_eq_wrong (f : FileCtx) (cfg : Config) (lines : List (List Char))
    (it : Nat × String) (hfind : findHeaderLine (splitPreserved lines).2 = some it)
    (hne : ¬ it.2 = (resolveStyle f.file_suffix lines).1) :
    processLines f cfg lines
      = (Status.modified,
         (splitPreserved lines).1
           ++ (splitPreserved lines).2.take it.1
           ++ composedHeader f cfg (resolveStyle f.file_suffix lines)
           ++ removeRun it.2 ((splitPreserved lines).2.drop it.1)) := by
  simp only [processLines, hfind]
  rw [if_neg hne]

theorem splitPreserved_fst_sub (lines : List (List Char)) :
    (splitPreserved lines).1 ⊆ lines := by
  cases lines with
  | nil => simp [splitPreserved]
  | cons l0 ls =>
    cases h : isLeadingPreserved l0 with
    | true =>
      rw [splitPreserved_cons_true h]
      intro x hx
      simp only [List.mem_singleton] at hx
      simp [hx]
    | false =>
      rw [splitPreserved_cons_false h]
      simp

theorem splitPreserved_snd_sub (lines : List (List Char)) :
    (splitPreserved lines).2 ⊆ lines := by
  cases lines with
  | nil => simp [splitPreserved]
  | cons l0 ls =>
    cases h : isLeadingPreserved l0 with
    | true =>
      rw [splitPreserved_cons_true h]
      exact List.subset_cons_self l0 ls
    | false =>
      rw [splitPreserved_cons_false h]
      exact List.Subset.refl _

theorem processLines_out_no_nl (f : FileCtx) (cfg : Config) (lines : List (List Char))
    (hhdr : ∀ l ∈ composedHeader f cfg (resolveStyle f.file_suffix lines), '\n' ∉ l)
    (hlin : ∀ l ∈ lines, '\n' ∉ l) :
    ∀ l ∈ (processLines f cfg lines).2, '\n' ∉ l := by
  intro l hl
  cases hfind : findHeaderLine (splitPreserved lines).2 with
  | none =>
    rw [processLines_eq_none f cfg lines hfind] at hl
    simp only [List.mem_append] at hl
    rcases hl with (h | h) | h
    · exact hlin l (splitPreserved_fst_sub lines h)
    · exact hhdr l h
    · exact hlin l (splitPreserved_snd_sub lines h)
  | some it =>
    by_cases hit : it.2 = (resolveStyle f.file_suffix lines).1
    · rw [processLines_unchanged_of f cfg lines it hfind hit] at hl
      exact hlin l hl
    · rw [processLines_eq_wrong f cfg lines it hfind hit] at hl
      simp only [List.mem_append] at hl
      rcases hl with ((h | h) | h) | h
      · exact hlin l (splitPreserved_fst_sub lines h)
      · exact hlin l (splitPreserved_snd_sub lines (List.take_subset _ _ h))
      · exact hhdr l h
      · exact hlin l (splitPreserved_snd_sub lines
          (List.drop_subset _ _ (removeRun_subset _ _ h)))

theorem processLines_out_ne_nil (f : FileCtx) (cfg : Config) {lines : List (List Char)}
    (h : lines ≠ []) : (processLines f cfg lines).2 ≠ [] := by
  cases hfind : findHeaderLine (splitPreserved lines).2 with
  | none =>
    rw [processLines_eq_none f cfg lines hfind]
    simp [List.append_eq_nil, composedHeader_ne_nil]
  | some it =>
    by_cases hit : it.2 = (resolveStyle f.file_suffix lines).1
    · rw [processLines_unchanged_of f cfg lines it hfind hit]
      exact h
    · rw [processLines_eq_wrong f cfg lines it hfind hit]
      simp [List.append_eq_nil, composedHeader_ne_nil]

theorem resolveStyle_eq_st (ext : String) {st : String × String}
    (hlookup : ∀ s, List.lookup ext extensionStyles = some s → s = st)
    (out : List (List Char))
    (hsniff : List.lookup ext extensionStyles = none →
      sniffLines (dropShebang out) = st) :
    resolveStyle ext out = st := by
  cases hlk : List.lookup ext extensionStyles with
  | some s =>
    unfold resolveStyle
    rw [hlk]
    exact hlookup s hlk
  | none =>
    rw [resolveStyle_of_none hlk]
    exact hsniff hlk

theorem second_run_pres (f : FileCtx) (cfg : Config) {st : String × String} {h0 : List Char}
    (l0 : List Char) (tail : List (List Char))
    (hpl : isLeadingPreserved l0 = true)
    (hmark : lineMarker h0 = some st.1)
    (hstyle2 : resolveStyle f.file_suffix (l0 :: h0 :: tail) = st) :
    processLines f cfg (l0 :: h0 :: tail) = (Status.unchanged, l0 :: h0 :: tail) := by
  apply processLines_unchanged_of f cfg _ (0, st.1)
  · rw [splitPreserved_cons_true hpl]
    exact findHeaderLine_cons_some hmark _
  · rw [hstyle2]

theorem second_run_pres_mid (f : FileCtx) (cfg : Config) {st : String × String}
    {h0 : List Char} (l0 b0 : List Char) (tail : List (List Char))
    (hpl : isLeadingPreserved l0 = true)
    (hb0 : lineMarker b0 = none)
    (hmark : lineMarker h0 = some st.1)
    (hstyle2 : resolveStyle f.file_suffix (l0 :: b0 :: h0 :: tail) = st) :
    processLines f cfg (l0 :: b0 :: h0 :: tail)
      = (Status.unchanged, l0 :: b0 :: h0 :: tail) := by
  apply processLines_unchanged_of f cfg _ (1, st.1)
  · rw [splitPreserved_cons_true hpl]
    exact findHeaderLine_cons_cons hb0 hmark _
  · rw [hstyle2]

theorem second_run_nopres (f : FileCtx) (cfg : Config) {st : String × String}
    {h0 : List Char} (tail : List (List Char))
    (hp0 : isLeadingPreserved h0 = false)
    (hmark : lineMarker h0 = some st.1)
    (hstyle2 : resolveStyle f.file_suffix (h0 :: tail) = st) :
    processLines f cfg (h0 :: tail) = (Status.unchanged, h0 :: tail) := by
  apply processLines_unchanged_of f cfg _ (0, st.1)
  · rw [splitPreserved_cons_false hp0]
    exact findHeaderLine_cons_some hmark _
  · rw [hstyle2]

theorem second_run_nopres_mid (f : FileCtx) (cfg : Config) {st : String × String}
    {h0 : List Char} (b0 : List Char) (tail : List (List Char))
    (hpb : isLeadingPreserved b0 = false)
    (hb0 : lineMarker b0 = none)
    (hmark : lineMarker h0 = some st.1)
    (hstyle2 : resolveStyle f.file_suffix (b0 :: h0 :: tail) = st) :
    processLines f cfg (b0 :: h0 :: tail) = (Status.unchanged, b0 :: h0 :: tail) := by
  apply processLines_unchanged_of f cfg _ (1, st.1)
  · rw [splitPreserved_cons_false hpb]
    exact findHeaderLine_cons_cons hb0 hmark _
  · rw [hstyle2]

theorem processLines_idem_aux (f : FileCtx) (cfg : Config) (lines : List (List Char))
    (st : String × String) (h0 : List Char) (hs : List (List Char))
    (hst : resolveStyle f.file_suffix lines = st)
    (hhdr : composedHeader f cfg st = h0 :: hs)
    (hmark : lineMarker h0 = some st.1) :
    processLines f cfg (processLines f cfg lines).2
      = (Status.unchanged, (processLines f cfg lines).2) := by
  have hstmem : st ∈ knownStyles := hst ▸ resolveStyle_mem f.file_suffix lines
  have hblank : isBlank h0 = false := isBlank_false_of_marker hmark
  have hshape : ∃ r0, h0 = composeLine st r0 := by
    have hh := hhdr
    unfold composedHeader at hh
    cases hr : renderTemplate cfg.template (templateCtx f cfg) with
    | nil => rw [hr] at hh; simp at hh
    | cons a b =>
      rw [hr] at hh
      simp only [List.map_cons, List.cons.injEq] at hh
      exact ⟨a, hh.1.symm⟩
  have hpres0 : isLeadingPreserved h0 = false := by
    obtain ⟨r0, hr0⟩ := hshape
    rw [hr0]
    exact composeLine_not_preserved hstmem r0
  have hsheb0 : isShebang h0 = false := not_shebang_of_not_preserved hpres0
  have hlookup : ∀ s, List.lookup f.file_suffix extensionStyles = some s → s = st := by
    intro s hlk
    rw [← hst]
    unfold resolveStyle
    rw [hlk]
  have hsnftok : List.lookup f.file_suffix extensionStyles = none → sniffToken h0 = st := by
    intro hlk
    have hm : st ∈ sniffStyles := hst ▸ resolveStyle_mem_sniff hlk lines
    exact sniffToken_eq hm (lineMarker_some_facts hmark).2
  have hstyle_h0 : ∀ tail, resolveStyle f.file_suffix (h0 :: tail) = st := by
    intro tail
    refine resolveStyle_eq_st _ hlookup _ ?_
    intro hlk
    rw [dropShebang_cons_false hsheb0, sniffLines_cons_nonblank hblank]
    exact hsnftok hlk
  cases lines with
  | nil =>
    have hfind : findHeaderLine (splitPreserved ([] : List (List Char))).2 = none := rfl
    have hout : (processLines f cfg ([] : List (List Char))).2 = h0 :: hs := by
      rw [processLines_eq_none f cfg [] hfind]
      simp [splitPreserved, hst, hhdr]
    rw [hout]
    exact second_run_nopres f cfg hs hpres0 hmark (hstyle_h0 hs)
  | cons l0 ls =>
    cases hpl : isLeadingPreserved l0 with
    | true =>
      have hsp := splitPreserved_cons_true hpl ls
      have hstyle_l0h0 : ∀ tail, resolveStyle f.file_suffix (l0 :: h0 :: tail) = st := by
        intro tail
        refine resolveStyle_eq_st _ hlookup _ ?_
        intro hlk
        have hfst : sniffLines (dropShebang (l0 :: ls)) = st := by
          rw [← resolveStyle_of_none hlk (l0 :: ls)]
          exact hst
        cases hsh : isShebang l0 with
        | true =>
          rw [dropShebang_cons_true hsh, sniffLines_cons_nonblank hblank]
          exact hsnftok hlk
        | false =>
          have hbl0 : isBlank l0 = false := isBlank_false_of_preserved hpl
          rw [dropShebang_cons_false hsh, sniffLines_cons_nonblank hbl0]
          rw [dropShebang_cons_false hsh, sniffLines_cons_nonblank hbl0] at hfst
          exact hfst
      have hstyle_l0b0h0 : ∀ b0 brest tail, ls = b0 :: brest →
          resolveStyle f.file_suffix (l0 :: b0 :: h0 :: tail) = st := by
        intro b0 brest tail hls
        refine resolveStyle_eq_st _ hlookup _ ?_
        intro hlk
        have hfst : sniffLines (dropShebang (l0 :: ls)) = st := by
          rw [← resolveStyle_of_none hlk (l0 :: ls)]
          exact hst
        cases hsh : isShebang l0 with
        | true =>
          rw [dropShebang_cons_true hsh]
          rw [dropShebang_cons_true hsh, hls] at hfst
          cases hbb : isBlank b0 with
          | true =>
            rw [sniffLines_cons_blank hbb, sniffLines_cons_nonblank hblank]
            exact hsnftok hlk
          | false =>
            rw [sniffLines_cons_nonblank hbb]
            rw [sniffLines_cons_nonblank hbb] at hfst
            exact hfst
        | false =>
          have hbl0 : isBlank l0 = false := isBlank_false_of_preserved hpl
          rw [dropShebang_cons_false hsh, sniffLines_cons_nonblank hbl0]
          rw [dropShebang_cons_false hsh, sniffLines_cons_nonblank hbl0] at hfst
          exact hfst
      cases hfind : findHeaderLine ls with
      | none =>
        have hfind2 : findHeaderLine (splitPreserved (l0 :: ls)).2 = none := by
          rw [hsp]
          exact hfind
        have hout : (processLines f cfg (l0 :: ls)).2 = l0 :: h0 :: (hs ++ ls) := by
          rw [processLines_eq_none f cfg _ hfind2]
          simp [hsp, hst, hhdr]
        rw [hout]
        exact second_run_pres f cfg l0 (hs ++ ls) hpl hmark (hstyle_l0h0 _)
      | some it =>
        have hfind2 : findHeaderLine (splitPreserved (l0 :: ls)).2 = some it := by
          rw [hsp]
          exact hfind
        by_cases hit : it.2 = st.1
        · have hmatch : it.2 = (resolveStyle f.file_suffix (l0 :: ls)).1 := by
            rw [hst]
            exact hit
          have hu := processLines_unchanged_of f cfg _ it hfind2 hmatch
          rw [hu]
          simpa using hu
        · have hmatch : ¬ it.2 = (resolveStyle f.file_suffix (l0 :: ls)).1 := by
            rw [hst]
            exact hit
          rcases findHeaderLine_some hfind with ⟨b0, br, hls, hmb0, hidx⟩ |
            ⟨b0, b1, br, hls, hmb0, hmb1, hidx⟩
          · have hout : (processLines f cfg (l0 :: ls)).2
                = l0 :: h0 :: (hs ++ removeRun it.2 ls) := by
              rw [processLines_eq_wrong f cfg _ it hfind2 hmatch]
              simp [hsp, hst, hhdr, hidx]
            rw [hout]
            exact second_run_pres f cfg l0 _ hpl hmark (hstyle_l0h0 _)
          · subst hls
            have hout : (processLines f cfg (l0 :: b0 :: b1 :: br)).2
                = l0 :: b0 :: h0 :: (hs ++ removeRun it.2 (b1 :: br)) := by
              rw [processLines_eq_wrong f cfg _ it hfind2 hmatch]
              simp [hsp, hst, hhdr, hidx]
            rw [hout]
            exact second_run_pres_mid f cfg l0 b0 _ hpl hmb0 hmark
              (hstyle_l0b0h0 b0 (b1 :: br) _ rfl)
    | false =>
      have hsp := splitPreserved_cons_false hpl ls
      have hsheb_l0 : isShebang l0 = false := not_shebang_of_not_preserved hpl
      have hstyle_b0h0 : ∀ tail, resolveStyle f.file_suffix (l0 :: h0 :: tail) = st := by
        intro tail
        refine resolveStyle_eq_st _ hlookup _ ?_
        intro hlk
        have hfst : sniffLines (dropShebang (l0 :: ls)) = st := by
          rw [← resolveStyle_of_none hlk (l0 :: ls)]
          exact hst
        rw [dropShebang_cons_false hsheb_l0] at hfst
        rw [dropShebang_cons_false hsheb_l0]
        cases hbb : isBlank l0 with
        | true =>
          rw [sniffLines_cons_blank hbb, sniffLines_cons_nonblank hblank]
          exact hsnftok hlk
        | false =>
          rw [sniffLines_cons_nonblank hbb]
          rw [sniffLines_cons_nonblank hbb] at hfst
          exact hfst
      cases hfind : findHeaderLine (l0 :: ls) with
      | none =>
        have hfind2 : findHeaderLine (splitPreserved (l0 :: ls)).2 = none := by
          rw [hsp]
          exact hfind
        have hout : (processLines f cfg (l0 :: ls)).2 = h0 :: (hs ++ l0 :: ls) := by
          rw [processLines_eq_none f cfg _ hfind2]
          simp [hsp, hst, hhdr]
        rw [hout]
        exact second_run_nopres f cfg _ hpres0 hmark (hstyle_h0 _)
      | some it =>
        have hfind2 : findHeaderLine (splitPreserved (l0 :: ls)).2 = some it := by
          rw [hsp]
          exact hfind
        by_cases hit : it.2 = st.1
        · have hmatch : it.2 = (resolveStyle f.file_suffix (l0 :: ls)).1 := by
            rw [hst]
            exact hit
          have hu := processLines_unchanged_of f cfg _ it hfind2 hmatch
          rw [hu]
          simpa using hu
        · have hmatch : ¬ it.2 = (resolveStyle f.file_suffix (l0 :: ls)).1 := by
            rw [hst]
            exact hit
          rcases findHeaderLine_some hfind with ⟨b0, br, hls, hmb0, hidx⟩ |
            ⟨b0, b1, br, hls, hmb0, hmb1, hidx⟩
          · have hout : (processLines f cfg (l0 :: ls)).2
                = h0 :: (hs ++ removeRun it.2 (l0 :: ls)) := by
              rw [processLines_eq_wrong f cfg _ it hfind2 hmatch]
              simp [hsp, hst, hhdr, hidx]
            rw [hout]
            exact second_run_nopres f cfg _ hpres0 hmark (hstyle_h0 _)
          · injection hls with hb0 hlstail
            subst hlstail
            have hout : (processLines f cfg (l0 :: b1 :: br)).2
                = l0 :: h0 :: (hs ++ removeRun it.2 (b1 :: br)) := by
              rw [processLines_eq_wrong f cfg _ it hfind2 hmatch]
              simp [hsp, hst, hhdr, hidx]
            rw [hout]
            exact second_run_nopres_mid f cfg l0 _ hpl (hb0 ▸ hmb0) hmark
              (hstyle_b0h0 _)

theorem processLines_idem (f : FileCtx) (cfg : Config) (lines : List (List Char))
    (hdet : lineMarker
        (composedHeader f cfg (resolveStyle f.file_suffix lines)).headI
      = some (resolveStyle f.file_suffix lines).1) :
    processLines f cfg (processLines f cfg lines).2
      = (Status.unchanged, (processLines f cfg lines).2) := by
  cases hh : composedHeader f cfg (resolveStyle f.file_suffix lines) with
  | nil => exact absurd hh (composedHeader_ne_nil f cfg _)
  | cons h0 hs =>
    rw [hh] at hdet
    have hdet2 : lineMarker h0 = some (resolveStyle f.file_suffix lines).1 := by
      simpa using hdet
    exact processLines_idem_aux f cfg lines _ h0 hs rfl hh hdet2

/-- C1 (amended): idempotence of the File Processor, provided the composed
header is detectable by the Header Detector: when the header's first line
matches the `File:` marker under the resolved style's start token (as the
default `File:` template does) and the header lines contain no newline
characters, a first pass ending in `modified` or `unchanged` makes the
second pass a no-op: it returns `unchanged` and leaves the bytes
identical. -/
theorem c1_idempotent (f : FileCtx) (cfg : Config) (content : String)
    (_hfirst : (process_file f cfg content false).1 = Status.modified ∨
      (process_file f cfg content false).1 = Status.unchanged)
    (hnl : ∀ l ∈ composedHeader f cfg (resolveStyle f.file_suffix (splitNl content.data)),
      '\n' ∉ l)
    (hdet : lineMarker
        (composedHeader f cfg (resolveStyle f.file_suffix (splitNl content.data))).headI
      = some (resolveStyle f.file_suffix (splitNl content.data)).1) :
    process_file f cfg (process_file f cfg content false).2 false
      = (Status.unchanged, (process_file f cfg content false).2) := by
  have hkey := processLines_idem f cfg (splitNl content.data) hdet
  have hne := processLines_out_ne_nil f cfg (splitNl_ne_nil content.data)
  have hnonl := processLines_out_no_nl f cfg (splitNl content.data) hnl mem_splitNl_no_nl
  have hround : splitNl (joinNl (processLines f cfg (splitNl content.data)).2)
      = (processLines f cfg (splitNl content.data)).2 :=
    splitNl_joinNl _ hne hnonl
  have hdata : ∀ l : List Char, (String.mk l).data = l := fun _ => rfl
  unfold process_file
  simp only [Bool.false_eq_true, if_false, hdata, hround, hkey]

/-- C1 witness: processing the shebang `.cjs` file of the test suite once
ends in `modified`, and the second pass is a no-op. -/
theorem c1_idempotent_witness :
    ((process_file fileCli defaultConfig "#!/usr/bin/env node\nconsole.log(1);\n" false).1
        = Status.modified ∨
      (process_file fileCli defaultConfig "#!/usr/bin/env node\nconsole.log(1);\n" false).1
        = Status.unchanged) ∧
    process_file fileCli defaultConfig
        (process_file fileCli defaultConfig
          "#!/usr/bin/env node\nconsole.log(1);\n" false).2 false
      = (Status.unchanged,
         (process_file fileCli defaultConfig
           "#!/usr/bin/env node\nconsole.log(1);\n" false).2) := by
  constructor
  · exact Or.inl (by decide)
  · exact c1_idempotent fileCli defaultConfig _ (Or.inl (by decide)) (by decide) (by decide)

/-- C1 counterexample: with the template `Path: {file_path}`, whose
rendered line carries no `File:` marker, the first pass ends in `modified`
but the second pass inserts the header again: it returns `modified` and
changes the bytes, so unconditional idempotence fails. -/
theorem c1_counterexample :
    process_file fileAppPy pathConfig "x = 1\n" false
      = (Status.modified, "# Path: app.py\nx = 1\n") ∧
    process_file fileAppPy pathConfig "# Path: app.py\nx = 1\n" false
      = (Status.modified, "# Path: app.py\n# Path: app.py\nx = 1\n") ∧
    ("# Path: app.py\n# Path: app.py\nx = 1\n" : String) ≠ "# Path: app.py\nx = 1\n" := by
  exact ⟨by decide, by decide, by decide⟩

/-- C9: the legacy pyannotate proxies forward their arguments unchanged:
`pyannotate.process_file`, `pyannotate.walk_directory` and
`pyannotate.main` return exactly what the corresponding annot8 functions
return on the same arguments. -/
theorem c9_proxy_equivalence :
    (∀ (f : FileCtx) (cfg : Config) (content : String) (d : Bool),
        pyannotate_process_file f cfg content d = process_file f cfg content d) ∧
    (∀ (files : List (FileCtx × String)) (cfg : Config) (d : Bool),
        pyannotate_walk_directory files cfg d = walk_directory files cfg d) ∧
    (∀ (m : List String → Except String Nat) (args : List String),
        pyannotate_main m args = m args) :=
  ⟨fun _ _ _ _ => rfl, fun _ _ _ => rfl, fun _ _ => rfl⟩

end Annot8
